import Mathlib

/-!
Shallow embedding of `simpleproc.py`, a text-embedding macro preprocessor:
the tokenizer, the recursive macro evaluator, the macro registry, the
per-include evaluation context and the line processor, together with
theorems settling the specification's claims.

Modelling conventions, in one place:

* Python `str` is `String`, `int` is `Int`, `float` is `Rat` (exact rational
  arithmetic stands in for IEEE doubles; every fact proved here only needs
  values that are exactly representable, or disequalities that hold for the
  rational and the float alike).
* The tokenizer's regular expression is translated rule by rule.  The
  alternation tries `block_end` first at every position, and the whitespace
  rule before the catch-all error rule; since no block-end delimiter of the
  program begins with a whitespace character, skipping the maximal
  whitespace run first and then trying the rules in priority order is
  equivalent to the regex scan.  Character classes are the ASCII parts of
  `\w`, `\d`, `\s` (the program is only ever claimed about ASCII input).
* Generators are evaluated to explicit value lists.  On every non-error
  path of the Python program each generator is drained to completion by its
  consumer (`tuple(...)`, `yield from`, `*`-argument unpacking), so final
  values, final states and the order of side effects coincide.  In
  particular `MACROS[name](*eval_body(tokens))` unpacks the argument
  generator eagerly, before the macro function body runs; the embedding
  evaluates arguments first accordingly.  Tokenization errors that Python
  would raise lazily are raised by the same consumer that would have pulled
  them; an error aborts the whole run in both.
* The `PeekIter` wrapper and the `endpos` cell updated by the tokenizer are
  modelled exactly by `Scanner` (a peeked-but-unconsumed token stays
  buffered, and `endpos` already points past it), because `last_column`
  reads `endpos` after evaluation and the stream can be abandoned early at
  a top-level `)`.
* `print` output (the `dbg` macro) is modelled by the extra field `printed`
  of `State`, threaded like the process's stdout; the Python `State` object
  has no such field.
* File contents come from an environment `Env` mapping path names to the
  line list `readlines` would return; `mimetypes.guess_type` is the
  environment's `guessMime` function.
* Recursion through nested `include_eval` is made total with explicit fuel,
  and the evaluator's loop with a gas bound `2 * line.length + 8` (every
  loop step consumes at least one character of the line, so the bound is
  never reached on a run the Python program completes); running out of
  either is the distinguished error `Err.outOfFuel`, which the Python
  program cannot produce.
-/

/-- A dynamically typed scalar value: Python `int`, `float` or `str`. -/
inductive Value where
  | int (i : Int)
  | dec (q : Rat)
  | str (s : String)
deriving DecidableEq, Repr

/-- The failures of the program (`RuntimeError`s, `TypeError`/`ValueError`/
`ZeroDivisionError`, missing files), plus `outOfFuel` for the embedding's
fuel (unreachable for runs the Python program completes). -/
inductive Err where
  | outOfFuel
  | syntaxErr (text : String)
  | unterminated
  | unclosedGroup
  | unexpectedToken
  | variableNotFound (name : String)
  | macroNotFound (name : String)
  | arithMissing (name : String)
  | fileAccess (path : String)
  | typeErr
  | valueErr
  | zeroDivision
deriving DecidableEq, Repr

/-- A token of the block language (the `block_end` sentinel is not a token:
it terminates the stream). -/
inductive Tok where
  | variableTok (name : String)
  | macroTok (name : String)
  | literalTok (v : Value)
  | groupOpenTok
  | groupCloseTok
deriving DecidableEq, Repr

/-- The evaluation context (Python class `State`, simpleproc.py lines
261-266), plus `printed`, which models the process's stdout (the `dbg`
macro's `print` calls); the Python object has no such field. -/
structure State where
  vars : List (String × Value)
  emitlines : Bool
  emitoutline : Bool
  relpath : String
  printed : List String
deriving DecidableEq, Repr

/-- The environment: the file system as `readlines` results, and
`mimetypes.guess_type` restricted to a base name. -/
structure Env where
  fs : List (String × List String)
  guessMime : String → Option String

/-- Dictionary lookup in `state.vars`. -/
def lookupVar : List (String × Value) → String → Option Value
  | [], _ => none
  | (k, v) :: rest, n => if k == n then some v else lookupVar rest n

/-- File-system lookup (Python `open` + `readlines`). -/
def fsLookup : List (String × List String) → String → Option (List String)
  | [], _ => none
  | (k, v) :: rest, n => if k == n then some v else fsLookup rest n

/-- ASCII `\w`. -/
def isWordChar (c : Char) : Bool := c.isAlphanum || c == '_'

/-- ASCII `\s` (Python: space, tab, newline, carriage return, vertical tab,
form feed). -/
def isSpaceChar (c : Char) : Bool :=
  c == ' ' || c == '\t' || c == '\n' || c == '\r' || c == '\x0b' || c == '\x0c'

/-- Whether `pat` is an initial segment of `s`. -/
def listStartsWith : List Char → List Char → Bool
  | [], _ => true
  | _ :: _, [] => false
  | p :: ps, c :: cs => p == c && listStartsWith ps cs

/-- Whether the literal pattern `pat` matches inside `s` at offset `i`. -/
def matchAt (pat s : List Char) (i : Nat) : Bool :=
  listStartsWith pat (s.drop i)

/-- Length of the maximal run of characters satisfying `p` from offset `i`
(the greedy `+`/`*` of a character class). -/
def runLenFrom (p : Char → Bool) (s : List Char) (i : Nat) : Nat :=
  ((s.drop i).takeWhile p).length

/-- The substring `s[a:b]` as a `String`. -/
def sliceStr (s : List Char) (a b : Nat) : String :=
  String.mk ((s.drop a).take (b - a))

/-- Decimal digits to a natural number. -/
def digitsToNat (cs : List Char) : Nat :=
  cs.foldl (fun acc c => acc * 10 + (c.toNat - '0'.toNat)) 0

/-- Where the lazy regex `(?:\\?.)*?"` first closes a string literal.  The
argument is the text right after the opening quote; the result counts the
characters consumed including the closing quote.  The engine tries the
closing quote before another repetition, prefers the two-character
`\\` + any reading of a repetition, backtracks to the one-character
reading, and `.` never matches a newline. -/
def strEndL : List Char → Option Nat
  | [] => none
  | [c] => if c = '"' then some 1 else none
  | c :: c2 :: rest2 =>
    if c = '"' then some 1
    else if c = '\n' then none
    else if c = '\\' then
      if c2 = '\n' then Option.map (· + 1) (strEndL (c2 :: rest2))
      else
        match strEndL rest2 with
        | some n => some (n + 2)
        | none => Option.map (· + 1) (strEndL (c2 :: rest2))
    else Option.map (· + 1) (strEndL (c2 :: rest2))

/-- Python `value[1:-1].replace("\\\"", '"')`: rewrite each `\"` (scanning
left to right, non-overlapping) to `"`; no other escape is recognized. -/
def unescapeQuotes : List Char → List Char
  | '\\' :: '"' :: rest => '"' :: unescapeQuotes rest
  | c :: rest => c :: unescapeQuotes rest
  | [] => []

/-- One token match at offset `j` (a non-whitespace position where the
block-end rule has already failed), in the regex's priority order:
variable, macro name, literal, `(`, `)`, and the catch-all error rule
(`\S+`, which raises the syntax error). -/
def scanTok (s : List Char) (j : Nat) : Except Err (Tok × Nat) :=
  if j < s.length then
    let c := (s.drop j).headD ' '
    if c == '$' then
      let r := runLenFrom isWordChar s (j + 1)
      if 0 < r then .ok (.variableTok (sliceStr s (j + 1) (j + 1 + r)), j + 1 + r)
      else .error (.syntaxErr (sliceStr s j (j + runLenFrom (fun c => !isSpaceChar c) s j)))
    else if c.isAlpha then
      let r := runLenFrom isWordChar s j
      .ok (.macroTok (sliceStr s j (j + r)), j + r)
    else if c.isDigit then
      let r := runLenFrom Char.isDigit s j
      let r2 := runLenFrom Char.isDigit s (j + r + 1)
      if matchAt ['.'] s (j + r) && 0 < r2 then
        .ok (.literalTok (.dec (mkRat
              (digitsToNat ((s.drop j).take r) * 10 ^ r2 +
                digitsToNat ((s.drop (j + r + 1)).take r2) : Nat)
              (10 ^ r2))),
             j + r + 1 + r2)
      else .ok (.literalTok (.int (digitsToNat ((s.drop j).take r))), j + r)
    else if c == '"' then
      match strEndL (s.drop (j + 1)) with
      | some n =>
        .ok (.literalTok (.str (String.mk (unescapeQuotes ((s.drop (j + 1)).take (n - 1))))),
             j + 1 + n)
      | none => .error (.syntaxErr (sliceStr s j (j + runLenFrom (fun c => !isSpaceChar c) s j)))
    else if c == '(' then .ok (.groupOpenTok, j + 1)
    else if c == ')' then .ok (.groupCloseTok, j + 1)
    else .error (.syntaxErr (sliceStr s j (j + runLenFrom (fun c => !isSpaceChar c) s j)))
  else .error .unterminated

/-- Result of one pull on the token generator: a token and the offset just
past it, or the block-end marker and the offset just past it. -/
inductive ScanRes where
  | tokR (t : Tok) (endp : Nat)
  | endR (endp : Nat)
deriving DecidableEq, Repr

/-- One pull on the tokenizer from offset `i`: skip whitespace, then try the
block-end marker, then the token rules; at the end of the input the
generator's trailing `raise` (`unexpected end of file`). -/
def scan1 (close s : List Char) (i : Nat) : Except Err ScanRes :=
  let j := i + runLenFrom isSpaceChar s i
  if matchAt close s j then .ok (.endR (j + close.length))
  else if j < s.length then
    match scanTok s j with
    | .error e => .error e
    | .ok (t, e) => .ok (.tokR t e)
  else .error .unterminated

/-- The lazy token stream with its `PeekIter` wrapper and the shared
`endpos` cell: a peeked token stays in `buf`, and `endpos` already points
past every match the generator has produced (including a peeked one). -/
structure Scanner where
  close : List Char
  input : List Char
  pos : Nat
  endpos : Nat
  buf : Option Tok
  done : Bool
deriving DecidableEq, Repr

/-- A fresh stream over `input` starting just after a block-start marker at
offset `start` (Python seeds `endpos_ref` with that offset). -/
def scInit (close input : String) (start : Nat) : Scanner :=
  ⟨close.data, input.data, start, start, none, false⟩

/-- `PeekIter.peek`/`has_next`: pull one token if none is buffered.  `none`
means the generator has returned (block-end matched); a tokenizer `raise`
propagates. -/
def scPeek (sc : Scanner) : Except Err (Scanner × Option Tok) :=
  match sc.buf with
  | some t => .ok (sc, some t)
  | none =>
    if sc.done then .ok (sc, none)
    else
      match scan1 sc.close sc.input sc.pos with
      | .error e => .error e
      | .ok (.endR e) => .ok ({ sc with pos := e, endpos := e, done := true }, none)
      | .ok (.tokR t e) => .ok ({ sc with pos := e, endpos := e, buf := some t }, some t)

/-- `next(tokens)`: peek, then consume the buffered token. -/
def scNext (sc : Scanner) : Except Err (Scanner × Option Tok) :=
  match scPeek sc with
  | .error e => .error e
  | .ok (sc1, o) => .ok ({ sc1 with buf := none }, o)

/-- `os.path.join` for the shapes the program uses (a relative or absolute
second component). -/
def pathJoin (a b : String) : String :=
  if matchAt ['/'] b.data 0 then b
  else if a == "" || a.data.getLast? == some '/' then a ++ b
  else a ++ "/" ++ b

/-- Index of the last `/` in `cs`, if any. -/
def lastSlashIdx (cs : List Char) : Option Nat :=
  ((cs.enum.filter (fun x => x.2 == '/')).getLast?).map (·.1)

/-- `os.path.dirname` (posix): everything up to the last `/`, with trailing
slashes stripped unless the head is all slashes. -/
def dirname (p : String) : String :=
  match lastSlashIdx p.data with
  | none => ""
  | some i =>
    let head := p.data.take (i + 1)
    if head.all (· == '/') then String.mk head
    else String.mk ((head.reverse.dropWhile (· == '/')).reverse)

/-- `os.path.basename` (posix). -/
def basename (p : String) : String :=
  match lastSlashIdx p.data with
  | none => p
  | some i => String.mk (p.data.drop (i + 1))

/-- One step of `posixpath.normpath`'s component loop. -/
def normStep (hasRoot : Bool) (acc : List String) (comp : String) : List String :=
  if comp == "" || comp == "." then acc
  else if comp != ".." || (!hasRoot && acc.isEmpty) || acc.getLast? == some ".." then
    acc ++ [comp]
  else if !acc.isEmpty then acc.dropLast
  else acc

/-- `os.path.normpath` (posix): collapse `//`, `.` and `..` components,
keeping a doubled leading slash only when there are exactly two. -/
def normPath (p : String) : String :=
  if p == "" then "."
  else
    let abs1 := matchAt ['/'] p.data 0
    let abs2 := matchAt ['/', '/'] p.data 0 && !matchAt ['/', '/', '/'] p.data 0
    let comps := (p.splitOn "/").foldl (normStep abs1) []
    let lead := if abs2 then "//" else if abs1 then "/" else ""
    let out := lead ++ String.intercalate "/" comps
    if out == "" then "." else out

/-- The `MIME_2_DELIMITERS` table (regex-escaped patterns written as the
literal strings they match). -/
def MIME_2_DELIMITERS (mime : Option String) : Option (String × String) :=
  match mime with
  | some m =>
    if m == "text/x-python" then some ("\"\"\"@@", "@@\"\"\"")
    else if m == "text/javascript" then some ("/*@", "@*/")
    else if m == "text/html" then some ("<!--@", "@-->")
    else if m == "text/xml" then some ("<!--@", "@-->")
    else none
  | none => none

/-- `make_tokenizer_pattern`'s delimiter resolution: the table entry, or the
default pair. -/
def delimitersFor (mime : Option String) : String × String :=
  (MIME_2_DELIMITERS mime).getD ("\x7b@", "@\x7d")

/-- Numeric reading of a value, for arithmetic (`str` operands are a Python
`TypeError`).  `mkRat i 1 = i`; the kernel-reducible constructor is used
throughout instead of the irreducible `Rat` field operations. -/
def toRatNum : Value → Option Rat
  | .int i => some (mkRat i 1)
  | .dec q => some q
  | .str _ => none

/-- Exact rational division written with the reducible constructor `mkRat`:
`ratDivQ a b = a / b` whenever `b ≠ 0` (`ratDivQ_eq_div` below). -/
def ratDivQ (a b : Rat) : Rat :=
  if 0 ≤ b.num then mkRat (a.num * (b.den : Int)) (a.den * b.num.toNat)
  else mkRat (-(a.num * (b.den : Int))) (a.den * (-b.num).toNat)

/-- Python `a / b` on dynamic values: true division, always a float. -/
def valDiv (a b : Value) : Except Err Value :=
  match toRatNum a, toRatNum b with
  | some qa, some qb => if qb.num == 0 then .error .zeroDivision else .ok (.dec (ratDivQ qa qb))
  | _, _ => .error .typeErr

/-- Left fold of division over the remaining arguments. -/
def foldDiv : Value → List Value → Except Err Value
  | v, [] => .ok v
  | v, w :: rest =>
    match valDiv v w with
    | .error e => .error e
    | .ok v2 => foldDiv v2 rest

/-- The single `macro_reduce` behaviour shared by `add`, `sub`, `mul` and
`div` (simpleproc.py lines 103-122): the loop body closes over the module
variables `reducer` and `macro_name`, which are read only when the
generator runs, after the loop has finished, so every one of the four
macros folds the last reducer — division — and the zero-argument error
names `div`. -/
def macroReduce (args : List Value) : Except Err (List Value) :=
  match args with
  | [] => .error (.arithMissing "div")
  | v :: rest => (foldDiv v rest).map (fun r => [r])

/-- Python `int(...)` truncates a float toward zero. -/
def truncRat (q : Rat) : Int :=
  if q < 0 then -((-q).floor) else q.floor

/-- Python `int(str)`: optional sign, decimal digits, surrounding
whitespace; anything else is a `ValueError`. -/
def pyParseInt (s : String) : Option Int :=
  let cs := ((s.data.dropWhile isSpaceChar).reverse.dropWhile isSpaceChar).reverse
  match cs with
  | '-' :: ds => if !ds.isEmpty && ds.all Char.isDigit then some (-(digitsToNat ds : Int)) else none
  | '+' :: ds => if !ds.isEmpty && ds.all Char.isDigit then some (digitsToNat ds : Int) else none
  | ds => if !ds.isEmpty && ds.all Char.isDigit then some (digitsToNat ds : Int) else none

/-- `int(n)` over a dynamic value, as `repeat` applies it. -/
def toIntPy : Value → Except Err Int
  | .int i => .ok i
  | .dec q => .ok (truncRat q)
  | .str s =>
    match pyParseInt s with
    | some i => .ok i
    | none => .error .valueErr

/-- Smallest `k ≤ 64` with `den ∣ 10 ^ k`, for the decimal renderer. -/
def findPow10 (den : Nat) : Option Nat :=
  (List.range 65).find? (fun k => 10 ^ k % den == 0)

/-- Pad a digit string with leading zeros to length `k`. -/
def padZeros (s : String) (k : Nat) : String :=
  if s.length < k then String.mk (List.replicate (k - s.length) '0') ++ s else s

/-- Python `str(float)` for the exactly representable, short decimals the
program's claims mention (`0.5`, `2.0`, …): the shortest decimal expansion,
with `.0` on integral floats.  A rational with no finite expansion would be
rounded by Python; it is rendered as a fraction here and reached by no
theorem of this file. -/
def renderDec (q : Rat) : String :=
  let sign := if q < 0 then "-" else ""
  let a := if q < 0 then -q else q
  match findPow10 a.den with
  | some 0 => sign ++ toString a.num ++ ".0"
  | some k =>
    let digits := padZeros (toString (a * (10 : Rat) ^ k).num) (k + 1)
    let cut := digits.length - k
    sign ++ String.mk (digits.data.take cut) ++ "." ++ String.mk (digits.data.drop cut)
  | none => sign ++ toString a.num ++ "/" ++ toString a.den

/-- Python `str(value)`, the canonical text rendering. -/
def render : Value → String
  | .str s => s
  | .int i => toString i
  | .dec q => renderDec q

/-- `xs` concatenated with itself `n` times (Python
`for _ in range(n): yield from args`). -/
def repeatList {α : Type} : Nat → List α → List α
  | 0, _ => []
  | n + 1, xs => xs ++ repeatList n xs

/-- The type of the `include_eval` recursion hook threaded through the
evaluator (the knot is tied by `nestedIncl`). -/
abbrev InclFn := State → Value → Except Err (List Value × State)

/-- The names in the `MACROS` registry. -/
def macroNames : List String :=
  ["dbg", "concat", "add", "sub", "mul", "div", "include", "include_eval",
   "no_outline", "repeat", "separated"]

/-- Apply a registry macro to its (already evaluated) argument tuple: the
Python call `MACROS[name](*args)` drained to completion.  A wrong argument
count is Python's `TypeError` at the call. -/
def applyMacro (env : Env) (inclF : InclFn) (st : State) (name : String)
    (args : List Value) : Except Err (List Value × State) :=
  if name == "dbg" then
    .ok ([], { st with printed := st.printed ++ ["debug: " ++ String.intercalate " " (args.map render)] })
  else if name == "concat" then
    .ok ([.str (String.join (args.map render))], st)
  else if name == "add" || name == "sub" || name == "mul" || name == "div" then
    (macroReduce args).map (fun vs => (vs, st))
  else if name == "include" then
    match args with
    | [p] =>
      let pathname := pathJoin st.relpath (normPath (render p))
      match fsLookup env.fs pathname with
      | some lines => .ok (lines.map Value.str, st)
      | none => .error (.fileAccess pathname)
    | _ => .error .typeErr
  else if name == "include_eval" then
    match args with
    | [p] => inclF st p
    | _ => .error .typeErr
  else if name == "no_outline" then
    match args with
    | [] => .ok ([], { st with emitoutline := false })
    | _ => .error .typeErr
  else if name == "repeat" then
    match args with
    | [] => .error .typeErr
    | n :: rest => (toIntPy n).map (fun k => (repeatList k.toNat rest, st))
  else if name == "separated" then
    match args with
    | [] => .error .typeErr
    | s :: rest => .ok (List.intersperse s rest, st)
  else .error (.macroNotFound name)

/-- `eval_body` (simpleproc.py lines 135-159), fully drained: while the
stream has a next token and it is not `)`, consume and dispatch.  A macro
name is first looked up (`MACROS[name]`, the `KeyError` branch), then its
arguments are the eager evaluation of the rest of the body (Python unpacks
`*eval_body(tokens)` before the macro function body runs), then the macro's
output is spliced and the loop continues.  `(` evaluates a body and then
requires `)` (`eval_group_untill_end`).  Gas decreases on every recursive
call; each call consumed at least one token, so `2 * length + 8` gas (see
the callers) never runs out on a terminating Python run. -/
def evalBody (env : Env) (inclF : InclFn) : Nat → State → Scanner →
    Except Err (List Value × State × Scanner)
  | 0, _, _ => .error .outOfFuel
  | g + 1, st, sc =>
    match scPeek sc with
    | .error e => .error e
    | .ok (sc1, none) => .ok ([], st, sc1)
    | .ok (sc1, some t) =>
      if t == .groupCloseTok then .ok ([], st, sc1)
      else
        match scNext sc1 with
        | .error e => .error e
        | .ok (sc2, _) =>
          match t with
          | .groupOpenTok =>
            match evalBody env inclF g st sc2 with
            | .error e => .error e
            | .ok (vs, st1, sc3) =>
              match scNext sc3 with
              | .error e => .error e
              | .ok (_, none) => .error .unclosedGroup
              | .ok (sc4, some tk) =>
                if tk == .groupCloseTok then
                  match evalBody env inclF g st1 sc4 with
                  | .error e => .error e
                  | .ok (vs2, st2, sc5) => .ok (vs ++ vs2, st2, sc5)
                else .error .unexpectedToken
          | .variableTok nm =>
            match lookupVar st.vars nm with
            | none => .error (.variableNotFound nm)
            | some v =>
              match evalBody env inclF g st sc2 with
              | .error e => .error e
              | .ok (vs2, st2, sc3) => .ok (v :: vs2, st2, sc3)
          | .literalTok v =>
            match evalBody env inclF g st sc2 with
            | .error e => .error e
            | .ok (vs2, st2, sc3) => .ok (v :: vs2, st2, sc3)
          | .macroTok nm =>
            if macroNames.contains nm then
              match evalBody env inclF g st sc2 with
              | .error e => .error e
              | .ok (args, st1, sc3) =>
                match applyMacro env inclF st1 nm args with
                | .error e => .error e
                | .ok (vs, st2) =>
                  match evalBody env inclF g st2 sc3 with
                  | .error e => .error e
                  | .ok (vs2, st3, sc4) => .ok (vs ++ vs2, st3, sc4)
            else .error (.macroNotFound nm)
          | .groupCloseTok => .ok ([], st, sc1)

/-- Block-start occurrences in a line: `finditer` of the literal start
marker, non-overlapping, left to right.  The fuel `s.length + 1` always
suffices (each step advances by at least one). -/
def occGo (op s : List Char) : Nat → Nat → List Nat
  | _, 0 => []
  | i, f + 1 =>
    if i < s.length then
      if matchAt op s i then i :: occGo op s (i + op.length) f
      else occGo op s (i + 1) f
    else []

/-- All block-start occurrence offsets in a line. -/
def occList (op s : List Char) : List Nat :=
  if op.isEmpty then [] else occGo op s 0 (s.length + 1)

/-- The loop body over one block-start match (simpleproc.py lines 182-195):
queue the verbatim span since `last_column` if it is non-empty, evaluate
the block (forcing `parts`), then — if `last_column` is still `0` and
`emitoutline` is now clear — discard everything queued so far, append the
block's parts, and move `last_column` to the tokenizer's `endpos`. -/
def blockStep (env : Env) (inclF : InclFn) (cl : String) (line : List Char)
    (st : State) (dstParts : List String) (lastCol s0 s1 : Nat) :
    Except Err ((List String × Nat) × State) :=
  let dstParts1 := if lastCol < s0 then dstParts ++ [sliceStr line lastCol s0] else dstParts
  match evalBody env inclF (2 * line.length + 8) st ⟨cl.data, line, s1, s1, none, false⟩ with
  | .error e => .error e
  | .ok (vals, st1, sc1) =>
    let parts := vals.map render
    let base := if lastCol == 0 && st1.emitoutline == false then [] else dstParts1
    .ok ((base ++ parts, sc1.endpos), st1)

/-- Fold `blockStep` over the line's block-start matches. -/
def blockFold (env : Env) (inclF : InclFn) (cl : String) (line : List Char) :
    List (Nat × Nat) → (List String × Nat) → State →
    Except Err ((List String × Nat) × State)
  | [], acc, st => .ok (acc, st)
  | sp :: rest, acc, st =>
    match blockStep env inclF cl line st acc.1 acc.2 sp.1 sp.2 with
    | .error e => .error e
    | .ok (acc1, st1) => blockFold env inclF cl line rest acc1 st1

/-- One line of the line processor (simpleproc.py lines 178-206): process
every block, then, when `emitlines` is set, append the queued chunks and
the tail — verbatim when `emitoutline` is still set, else only a line
terminator and only when the line had one — and reset `emitoutline`
unconditionally. -/
def processLine (env : Env) (inclF : InclFn) (op cl : String) (st : State)
    (line : String) : Except Err (List String × State) :=
  let spans := (occList op.data line.data).map (fun i => (i, i + op.length))
  match blockFold env inclF cl line.data spans ([], 0) st with
  | .error e => .error e
  | .ok (acc, st1) =>
    let out :=
      if st1.emitlines then
        acc.1 ++
          (if acc.2 < line.length then
            (if st1.emitoutline then [String.mk (line.data.drop acc.2)]
             else if line.data.getLast? == some '\n' then ["\n"] else [])
           else [])
      else []
    .ok (out, { st1 with emitoutline := true })

/-- All lines of a file in order, threading the context. -/
def processLines (env : Env) (inclF : InclFn) (op cl : String) :
    State → List String → Except Err (List String × State)
  | st, [] => .ok ([], st)
  | st, l :: rest =>
    match processLine env inclF op cl st l with
    | .error e => .error e
    | .ok (cs, st1) =>
      match processLines env inclF op cl st1 rest with
      | .error e => .error e
      | .ok (cs2, st2) => .ok (cs ++ cs2, st2)

/-- The child context `include_eval` creates (simpleproc.py lines 164-169):
a fresh `State()` — `emitlines` and `emitoutline` both true — sharing the
parent's `variables` object, with `relpath` the included file's directory;
`printed` is the shared stdout. -/
def childState (parent : State) (pathname : String) : State :=
  { vars := parent.vars, emitlines := true, emitoutline := true,
    relpath := dirname pathname, printed := parent.printed }

/-- `macro_include_eval` (simpleproc.py lines 161-210) with the recursion
hook `inclF` for nested inclusions: resolve the path against the caller's
base directory, read the file, resolve delimiters from its media type,
process every line in a child context, then restore the caller's context —
only the shared `variables` object (and stdout) carry changes back — and
yield the produced chunks as string values. -/
def includeGo (env : Env) (inclF : InclFn) (st : State) (p : Value) :
    Except Err (List Value × State) :=
  let pathname := pathJoin st.relpath (render p)
  match fsLookup env.fs pathname with
  | none => .error (.fileAccess pathname)
  | some srcLines =>
    let pair := delimitersFor (env.guessMime (basename pathname))
    match processLines env inclF pair.1 pair.2 (childState st pathname) srcLines with
    | .error e => .error e
    | .ok (chunks, child1) =>
      .ok (chunks.map Value.str,
           { st with vars := child1.vars, printed := child1.printed })

/-- Tie the recursion knot: `fuel` bounds the depth of nested
`include_eval` calls (the Python program recurses unboundedly on cyclic
inclusion). -/
def nestedIncl (env : Env) : Nat → InclFn
  | 0 => fun _ _ => .error .outOfFuel
  | d + 1 => fun st p => includeGo env (nestedIncl env d) st p

/-- `include_eval` at a given nesting-depth budget. -/
def includeEvalFn (fuel : Nat) (env : Env) (st : State) (p : Value) :
    Except Err (List Value × State) :=
  nestedIncl env fuel st p

/-- The root context of a run (simpleproc.py lines 261-272): the `-v`
bindings, both flags set, empty base directory. -/
def rootState (vars : List (String × Value)) : State :=
  ⟨vars, true, true, "", []⟩

/-- `process_file` (simpleproc.py lines 243-259), reduced to the written
content: `none` when the output sequence is empty (no destination file is
created), otherwise the concatenation `writelines` produces. -/
def processFileOut (fuel : Nat) (env : Env) (vars : List (String × Value))
    (src : String) : Except Err (Option String) :=
  match includeEvalFn fuel env (rootState vars) (.str src) with
  | .error e => .error e
  | .ok (vals, _) =>
    match vals with
    | [] => .ok none
    | _ => .ok (some (String.join (vals.map render)))

/-- Drain the tokenizer completely from offset `i`: the token list and the
offset just past the block-end marker (for stating tokenizer claims). -/
def tokenizeAll (cl s : String) (i : Nat) : Nat → Except Err (List Tok × Nat)
  | 0 => .error .outOfFuel
  | f + 1 =>
    match scan1 cl.data s.data i with
    | .error e => .error e
    | .ok (.endR e) => .ok ([], e)
    | .ok (.tokR t e) =>
      match tokenizeAll cl s e f with
      | .error er => .error er
      | .ok (ts, e2) => .ok (t :: ts, e2)

/-- Evaluate one block body (text starting just after a block-start marker)
to completion. -/
def runBody (env : Env) (fuel : Nat) (cl s : String) (st : State) :
    Except Err (List Value × State × Scanner) :=
  evalBody env (nestedIncl env fuel) (2 * s.length + 8) st (scInit cl s 0)

/-- The values a block body yields. -/
def runValues (env : Env) (fuel : Nat) (cl s : String) (st : State) :
    Except Err (List Value) :=
  (runBody env fuel cl s st).map (fun r => r.1)

/-- The values a block body yields together with everything printed. -/
def runOut (env : Env) (fuel : Nat) (cl s : String) (st : State) :
    Except Err (List Value × List String) :=
  (runBody env fuel cl s st).map (fun r => (r.1, r.2.1.printed))

/-- The chunks one processed line contributes to the output. -/
def runLineChunks (env : Env) (fuel : Nat) (op cl : String) (st : State)
    (line : String) : Except Err (List String) :=
  (processLine env (nestedIncl env fuel) op cl st line).map (fun r => r.1)

/-- An environment with no files (enough for blocks that do not include). -/
def env0 : Env := ⟨[], fun _ => none⟩

deriving instance DecidableEq for Except

/-- An empty source file, for the C6 counterexample. -/
def env6 : Env := ⟨[("e.txt", [])], fun _ => none⟩

/-- A marker-free two-line source file, for the C6 witness. -/
def env6b : Env := ⟨[("a.txt", ["hi\n", "there"])], fun _ => none⟩

/-- Two nested files: the outer one includes the inner, whose block reads
the root binding `$x`. -/
def env7 : Env :=
  ⟨[("o.txt", ["\x7b@ include_eval \"i.txt\" @\x7d"]),
    ("i.txt", ["\x7b@ $x @\x7d"])], fun _ => none⟩

/-- The inner file for the C10 demonstration: its block clears
`emitOutline` in the included (child) context. -/
def env10 : Env := ⟨[("n.txt", ["\x7b@ no_outline @\x7dx"])], fun _ => none⟩

theorem takeWhileLenLe (p : Char → Bool) : ∀ l : List Char, (l.takeWhile p).length ≤ l.length := by
  intro l
  induction l with
  | nil => simp
  | cons c rest ih =>
    rw [List.takeWhile_cons]
    split
    · simpa using ih
    · simp

theorem runLenFrom_le (p : Char → Bool) (s : List Char) (i : Nat) :
    runLenFrom p s i ≤ s.length - i := by
  unfold runLenFrom
  calc ((s.drop i).takeWhile p).length ≤ (s.drop i).length := takeWhileLenLe p (s.drop i)
    _ = s.length - i := List.length_drop i s

theorem runLenFrom_pos {p : Char → Bool} {s : List Char} {i : Nat} {c : Char}
    {rest : List Char} (hd : s.drop i = c :: rest) (hp : p c = true) :
    1 ≤ runLenFrom p s i := by
  unfold runLenFrom
  rw [hd, List.takeWhile_cons, hp]
  simp

theorem strEndL_boundsAux : ∀ (k : Nat) (l : List Char), l.length ≤ k →
    ∀ (n : Nat), strEndL l = some n → 1 ≤ n ∧ n ≤ l.length := by
  intro k
  induction k with
  | zero =>
    intro l hl n h
    have : l = [] := List.eq_nil_of_length_eq_zero (Nat.le_zero.mp hl)
    subst this
    simp [strEndL] at h
  | succ k ih =>
    intro l hl n h
    match l with
    | [] => simp [strEndL] at h
    | c :: rest =>
      have hmap : ∀ x, Option.map (· + 1) (strEndL rest) = some x →
          1 ≤ x ∧ x ≤ (c :: rest).length := by
        intro x hx
        cases hr : strEndL rest with
        | none => rw [hr] at hx; simp at hx
        | some m =>
          rw [hr] at hx
          simp at hx
          have := ih rest (by simp at hl; omega) m hr
          simp
          omega
      match rest with
      | [] =>
        by_cases h1 : c = '"'
        · rw [show strEndL [c] = some 1 from by simp [strEndL, h1]] at h
          injection h with h
          simp [← h]
        · rw [show strEndL [c] = none from by simp [strEndL, h1]] at h
          exact absurd h (by simp)
      | c2 :: rest2 =>
        simp only [strEndL] at h
        by_cases h1 : c = '"'
        · rw [if_pos h1] at h
          injection h with h
          simp [← h]
        · rw [if_neg h1] at h
          by_cases h2 : c = '\n'
          · rw [if_pos h2] at h
            exact absurd h (by simp)
          · rw [if_neg h2] at h
            by_cases h3 : c = '\\'
            · rw [if_pos h3] at h
              by_cases h4 : c2 = '\n'
              · rw [if_pos h4] at h
                exact hmap n h
              · rw [if_neg h4] at h
                cases hr2 : strEndL rest2 with
                | some m =>
                  rw [hr2] at h
                  injection h with h
                  have := ih rest2 (by simp at hl; omega) m hr2
                  simp
                  omega
                | none =>
                  rw [hr2] at h
                  exact hmap n h
            · rw [if_neg h3] at h
              exact hmap n h

theorem strEndL_bounds {l : List Char} {n : Nat} (h : strEndL l = some n) :
    1 ≤ n ∧ n ≤ l.length :=
  strEndL_boundsAux l.length l le_rfl n h

theorem matchAt_ge {cl s : List Char} {j : Nat} (hcl : cl ≠ []) (hj : s.length ≤ j) :
    matchAt cl s j = false := by
  unfold matchAt
  rw [List.drop_eq_nil_of_le hj]
  cases cl with
  | nil => exact absurd rfl hcl
  | cons c cs => rfl

theorem scanTok_cases (s : List Char) (j : Nat) :
    (∃ t e, scanTok s j = .ok (t, e) ∧ j < e ∧ e ≤ s.length) ∨
      scanTok s j = .error .unterminated ∨
      (∃ msg, scanTok s j = .error (.syntaxErr msg)) := by
  unfold scanTok
  by_cases hj : j < s.length
  · rw [if_pos hj]
    cases hd : s.drop j with
    | nil =>
      rw [List.drop_eq_nil_iff] at hd
      omega
    | cons c rest =>
      simp only [List.headD_cons]
      have hrl : rest.length + 1 = s.length - j := by
        have := congrArg List.length hd
        simp at this
        omega
      by_cases h1 : c == '$'
      · rw [if_pos h1]
        by_cases h2 : 0 < runLenFrom isWordChar s (j + 1)
        · rw [if_pos h2]
          have := runLenFrom_le isWordChar s (j + 1)
          exact Or.inl ⟨_, _, rfl, by omega, by omega⟩
        · rw [if_neg h2]
          exact Or.inr (Or.inr ⟨_, rfl⟩)
      · rw [if_neg h1]
        by_cases h2 : c.isAlpha
        · rw [if_pos h2]
          have hpos : 1 ≤ runLenFrom isWordChar s j :=
            runLenFrom_pos hd (by simp [isWordChar, Char.isAlphanum, h2])
          have := runLenFrom_le isWordChar s j
          exact Or.inl ⟨_, _, rfl, by omega, by omega⟩
        · rw [if_neg h2]
          by_cases h3 : c.isDigit
          · rw [if_pos h3]
            by_cases h4 : matchAt ['.'] s (j + runLenFrom Char.isDigit s j) &&
                decide (0 < runLenFrom Char.isDigit s (j + runLenFrom Char.isDigit s j + 1))
            · rw [if_pos h4]
              simp only [Bool.and_eq_true, decide_eq_true_eq] at h4
              have h5 := runLenFrom_le Char.isDigit s (j + runLenFrom Char.isDigit s j + 1)
              exact Or.inl ⟨_, _, rfl, by omega, by omega⟩
            · rw [if_neg h4]
              have hpos : 1 ≤ runLenFrom Char.isDigit s j := runLenFrom_pos hd h3
              have := runLenFrom_le Char.isDigit s j
              exact Or.inl ⟨_, _, rfl, by omega, by omega⟩
          · rw [if_neg h3]
            by_cases h5 : c == '"'
            · rw [if_pos h5]
              cases hse : strEndL (s.drop (j + 1)) with
              | some n =>
                have hb := strEndL_bounds hse
                have : (s.drop (j + 1)).length = s.length - (j + 1) := by simp
                exact Or.inl ⟨_, _, rfl, by omega, by omega⟩
              | none =>
                exact Or.inr (Or.inr ⟨_, rfl⟩)
            · rw [if_neg h5]
              by_cases h6 : c == '('
              · rw [if_pos h6]
                exact Or.inl ⟨_, _, rfl, by omega, by omega⟩
              · rw [if_neg h6]
                by_cases h7 : c == ')'
                · rw [if_pos h7]
                  exact Or.inl ⟨_, _, rfl, by omega, by omega⟩
                · rw [if_neg h7]
                  exact Or.inr (Or.inr ⟨_, rfl⟩)
  · rw [if_neg hj]
    exact Or.inr (Or.inl rfl)

theorem scan1_cases (cl s : List Char) (i : Nat) :
    (∃ j, matchAt cl s j = true ∧ scan1 cl s i = .ok (.endR (j + cl.length))) ∨
      (∃ t e, scan1 cl s i = .ok (.tokR t e) ∧ i < e ∧ e ≤ s.length) ∨
      scan1 cl s i = .error .unterminated ∨
      (∃ msg, scan1 cl s i = .error (.syntaxErr msg)) := by
  unfold scan1
  by_cases hm : matchAt cl s (i + runLenFrom isSpaceChar s i)
  · rw [if_pos hm]
    exact Or.inl ⟨_, hm, rfl⟩
  · rw [if_neg hm]
    by_cases hj : i + runLenFrom isSpaceChar s i < s.length
    · rw [if_pos hj]
      rcases scanTok_cases s (i + runLenFrom isSpaceChar s i) with ⟨t, e, hok, hlt, hle⟩ | herr | ⟨msg, herr⟩
      · rw [hok]
        exact Or.inr (Or.inl ⟨t, e, rfl, by omega, hle⟩)
      · rw [herr]
        exact Or.inr (Or.inr (Or.inl rfl))
      · rw [herr]
        exact Or.inr (Or.inr (Or.inr ⟨msg, rfl⟩))
    · rw [if_neg hj]
      exact Or.inr (Or.inr (Or.inl rfl))

theorem tokenizeAll_step_err {cl s : String} {i f : Nat} {er : Err}
    (hs : scan1 cl.data s.data i = .error er) :
    tokenizeAll cl s i (f + 1) = .error er := by
  unfold tokenizeAll
  rw [hs]

theorem tokenizeAll_step_end {cl s : String} {i f : Nat} {e : Nat}
    (hs : scan1 cl.data s.data i = .ok (.endR e)) :
    tokenizeAll cl s i (f + 1) = .ok ([], e) := by
  unfold tokenizeAll
  rw [hs]

theorem tokenizeAll_step_tok {cl s : String} {i f : Nat} {t : Tok} {e : Nat}
    (hs : scan1 cl.data s.data i = .ok (.tokR t e)) :
    tokenizeAll cl s i (f + 1) =
      (match tokenizeAll cl s e f with
       | .error er => .error er
       | .ok (ts, e2) => .ok (t :: ts, e2)) := by
  conv_lhs => unfold tokenizeAll
  rw [hs]

theorem tokenizeAll_ok_close : ∀ (fuel : Nat) (cl s : String) (i : Nat) (ts : List Tok) (e : Nat),
    tokenizeAll cl s i fuel = .ok (ts, e) → ∃ j, matchAt cl.data s.data j = true := by
  intro fuel
  induction fuel with
  | zero => intro cl s i ts e h; simp [tokenizeAll] at h
  | succ f ih =>
    intro cl s i ts e h
    rcases scan1_cases cl.data s.data i with ⟨j, hmj, hs⟩ | ⟨t, e', hs, _, _⟩ | hs | ⟨msg, hs⟩
    · exact ⟨j, hmj⟩
    · rw [tokenizeAll_step_tok hs] at h
      cases ht : tokenizeAll cl s e' f with
      | error er => rw [ht] at h; exact absurd h (by simp)
      | ok r => exact ih cl s e' r.1 r.2 (by rw [ht])
    · rw [tokenizeAll_step_err hs] at h
      exact absurd h (by simp)
    · rw [tokenizeAll_step_err hs] at h
      exact absurd h (by simp)

theorem tokenizeAll_noclose : ∀ (fuel : Nat) (cl s : String) (i : Nat),
    i ≤ s.data.length →
    (∀ j, matchAt cl.data s.data j = false) →
    s.data.length + 1 ≤ fuel + i →
    tokenizeAll cl s i fuel = .error .unterminated ∨
      ∃ t, tokenizeAll cl s i fuel = .error (.syntaxErr t) := by
  intro fuel
  induction fuel with
  | zero => intro cl s i hi _ hf; omega
  | succ f ih =>
    intro cl s i hi hnc hf
    rcases scan1_cases cl.data s.data i with ⟨j, hmj, _⟩ | ⟨t, e', hs, hlt, hle⟩ | hs | ⟨msg, hs⟩
    · rw [hnc j] at hmj
      exact absurd hmj (by simp)
    · rw [tokenizeAll_step_tok hs]
      rcases ih cl s e' hle hnc (by omega) with hrec | ⟨msg, hrec⟩
      · rw [hrec]
        exact Or.inl rfl
      · rw [hrec]
        exact Or.inr ⟨msg, rfl⟩
    · rw [tokenizeAll_step_err hs]
      exact Or.inl rfl
    · rw [tokenizeAll_step_err hs]
      exact Or.inr ⟨msg, rfl⟩

theorem delimClose_ne : ∀ m : Option String, (delimitersFor m).2.data ≠ [] := by
  intro m
  cases m with
  | none => decide
  | some s =>
    simp only [delimitersFor, MIME_2_DELIMITERS]
    split_ifs <;> decide

theorem mkRat_as_div (n : Int) (d : Nat) : mkRat n d = (n : Rat) / (d : Rat) := by
  rw [Rat.mkRat_eq_divInt, Rat.divInt_eq_div]
  norm_num

theorem ratDivQ_eq_div (a b : Rat) (hb : b ≠ 0) : ratDivQ a b = a / b := by
  have hbn : (b.num : Rat) ≠ 0 := by
    simpa using Rat.num_ne_zero.mpr hb
  have had : ((a.den : Nat) : Rat) ≠ 0 := by
    have := a.den_nz
    simp_all
  have hA : (a.num : Rat) = a * (a.den : Rat) := (div_eq_iff had).mp (Rat.num_div_den a)
  have hB : (b.num : Rat) = b * (b.den : Rat) := by
    have hbd : ((b.den : Nat) : Rat) ≠ 0 := by
      have := b.den_nz
      simp_all
    exact (div_eq_iff hbd).mp (Rat.num_div_den b)
  unfold ratDivQ
  by_cases hs : 0 ≤ b.num
  · rw [if_pos hs, mkRat_as_div]
    have ht : ((b.num.toNat : Nat) : Rat) = (b.num : Rat) := by
      exact_mod_cast congrArg (fun z : Int => (z : Rat)) (Int.toNat_of_nonneg hs)
    push_cast
    rw [ht, div_eq_div_iff (mul_ne_zero had hbn) hb]
    rw [hA, hB]
    ring
  · rw [if_neg hs, mkRat_as_div]
    have ht : (((-b.num).toNat : Nat) : Rat) = -(b.num : Rat) := by
      exact_mod_cast congrArg (fun z : Int => (z : Rat))
        (Int.toNat_of_nonneg (by omega : (0 : Int) ≤ -b.num))
    push_cast
    rw [ht, div_eq_div_iff (mul_ne_zero had (neg_ne_zero.mpr hbn)) hb]
    rw [hA, hB]
    ring

/-- C9: for every resolved delimiter pair, every input text and every
starting offset, the token scan only terminates successfully if it matched
an explicit block-end marker somewhere in the text, and when no block-end
marker occurs anywhere the scan fails — with UnterminatedBlock
(`unexpected end of file`) once the input is exhausted, or earlier with a
SyntaxError on text the rules reject. -/
theorem c9_terminator :
    (∀ (m : Option String) (s : String) (i fuel : Nat) (ts : List Tok) (e : Nat),
        tokenizeAll (delimitersFor m).2 s i fuel = .ok (ts, e) →
        ∃ j, matchAt (delimitersFor m).2.data s.data j = true) ∧
    (∀ (m : Option String) (s : String) (i fuel : Nat),
        i ≤ s.data.length →
        (∀ j, j < s.data.length → matchAt (delimitersFor m).2.data s.data j = false) →
        s.data.length + 1 ≤ fuel + i →
        tokenizeAll (delimitersFor m).2 s i fuel = .error .unterminated ∨
          ∃ t, tokenizeAll (delimitersFor m).2 s i fuel = .error (.syntaxErr t)) := by
  constructor
  · intro m s i fuel ts e h
    exact tokenizeAll_ok_close fuel (delimitersFor m).2 s i ts e h
  · intro m s i fuel hi hnc hf
    refine tokenizeAll_noclose fuel (delimitersFor m).2 s i hi ?_ hf
    intro j
    by_cases hj : j < s.data.length
    · exact hnc j hj
    · exact matchAt_ge (delimClose_ne m) (by omega)

/-- Witness for C9: the default close marker, the two-character input `ab`
(which holds no block-end marker): the scan fails with UnterminatedBlock. -/
theorem c9_terminator_witness :
    tokenizeAll (delimitersFor none).2 "ab" 0 3 = .error .unterminated ∨
      ∃ t, tokenizeAll (delimitersFor none).2 "ab" 0 3 = .error (.syntaxErr t) :=
  c9_terminator.2 none "ab" 0 3 (by decide) (by decide) (by decide)

/-- C8: tokenizing `$count` yields the single token `Variable "count"`
(the `$` stripped); `42` an integer literal; `3.5` a decimal literal 7/2;
a double-quoted string rewrites exactly the escape `\"` to `"` (so
`"a\"b"` renders back as `a"b`) and recognizes no other escape (`\n` stays
two characters); whitespace between tokens is silently discarded. -/
theorem c8_tokens :
    tokenizeAll "@\x7d" "$count @\x7d" 0 8 = .ok ([.variableTok "count"], 9) ∧
    tokenizeAll "@\x7d" "42 @\x7d" 0 8 = .ok ([.literalTok (.int 42)], 5) ∧
    tokenizeAll "@\x7d" "3.5 @\x7d" 0 8 = .ok ([.literalTok (.dec (mkRat 7 2))], 6) ∧
    mkRat 7 2 = (7 : Rat) / 2 ∧
    tokenizeAll "@\x7d" "\"a\\\"b\" @\x7d" 0 8 = .ok ([.literalTok (.str "a\"b")], 9) ∧
    render (.str "a\"b") = "a\"b" ∧
    tokenizeAll "@\x7d" "\"a\\nb\" @\x7d" 0 8 = .ok ([.literalTok (.str "a\\nb")], 9) ∧
    tokenizeAll "@\x7d" " $x \t 42 @\x7d" 0 8 =
      .ok ([.variableTok "x", .literalTok (.int 42)], 11) := by
  refine ⟨by decide, by decide, by decide, ?_, by decide, rfl, by decide, by decide⟩
  rw [mkRat_as_div]
  norm_num

/-- C1, the failing input: the module-level loop that builds the four
arithmetic macros closes over the loop variables `reducer` and
`macro_name`; they are read when the macro runs, after the loop ended, so
`add`, `sub` and `mul` all fold the last reducer — division — instead of
their own operator.  `add 1 2 3` therefore evaluates to the decimal
(1/2)/3 = 1/6, not to the integer 6 the declaration table intends, while
`div 1 2` (accidentally) gives the documented 0.5 and a zero-argument call
still fails ArithmeticArgumentMissing (naming `div`). -/
theorem c1_arith_all_divide :
    runValues env0 3 "@\x7d" "add 1 2 3 @\x7d" (rootState []) = .ok [Value.dec (mkRat 1 6)] ∧
    mkRat 1 6 = (1 : Rat) / 6 ∧
    Value.dec (mkRat 1 6) ≠ Value.int 6 ∧
    runValues env0 3 "@\x7d" "sub 1 2 3 @\x7d" (rootState []) = .ok [Value.dec (mkRat 1 6)] ∧
    runValues env0 3 "@\x7d" "mul 1 2 3 @\x7d" (rootState []) = .ok [Value.dec (mkRat 1 6)] ∧
    runValues env0 3 "@\x7d" "div 1 2 @\x7d" (rootState []) = .ok [Value.dec (mkRat 1 2)] ∧
    runValues env0 3 "@\x7d" "add @\x7d" (rootState []) = .error (.arithMissing "div") := by
  refine ⟨by decide, by rw [mkRat_as_div]; norm_num, by decide, by decide, by decide, by decide, by decide⟩

/-- C2, counterexample: in `repeat 0 dbg 1`, the macro `repeat` receives
argument count 0 and never iterates (uses) its argument sequence — it
yields nothing — yet the `dbg` nested in its argument list still prints:
`MACROS[name](*eval_body(tokens))` forces every argument eagerly at
invocation, before the macro function body runs. -/
theorem c2_eager_counterexample :
    runOut env0 3 "@\x7d" "repeat 0 dbg 1 @\x7d" (rootState []) = .ok ([], ["debug: 1"]) ∧
    (["debug: 1"] : List String) ≠ [] := by
  exact ⟨by decide, by decide⟩

/-- C2, amended: argument side effects happen exactly once, at macro
invocation, regardless of whether and how often the macro uses the
arguments: `repeat n (dbg 5) 7` prints once for n = 0, 1 and 3, while the
yielded values are the captured argument repeated n times. -/
theorem c2_eager_args :
    runOut env0 3 "@\x7d" "repeat 0 (dbg 5) 7 @\x7d" (rootState []) = .ok ([], ["debug: 5"]) ∧
    runOut env0 3 "@\x7d" "repeat 1 (dbg 5) 7 @\x7d" (rootState []) = .ok ([.int 7], ["debug: 5"]) ∧
    runOut env0 3 "@\x7d" "repeat 3 (dbg 5) 7 @\x7d" (rootState []) =
      .ok ([.int 7, .int 7, .int 7], ["debug: 5"]) := by
  refine ⟨by decide, by decide, by decide⟩

/-- C3, counterexample: on the line `xy{@ no_outline @}z` the only block
begins at column 2 (greater than 0), yet the queued verbatim chunk `xy` is
discarded: the code tests `last_column == 0` (first block of the line), not
the block's column.  Output is just the line terminator, not `xy` + terminator. -/
theorem c3_discard_counterexample :
    runLineChunks env0 3 "\x7b@" "@\x7d" (rootState []) "xy\x7b@ no_outline @\x7dz\n" =
      .ok ["\n"] ∧
    (["\n"] : List String) ≠ ["xy", "\n"] := by
  exact ⟨by decide, by decide⟩

/-- C3, amended: in each block step the queued chunks (including the
just-queued verbatim prefix) are discarded exactly when this is the first
block of the line (`last_column` still 0) and `emitOutline` is false after
evaluating the block — regardless of the block's starting column; the
block's own parts are appended in either case, and `last_column` moves to
the scan's end offset. -/
theorem c3_discard_rule (env : Env) (inclF : InclFn) (cl : String) (line : List Char)
    (st : State) (dstParts : List String) (lastCol s0 s1 : Nat)
    (acc' : List String × Nat) (st' : State)
    (h : blockStep env inclF cl line st dstParts lastCol s0 s1 = .ok (acc', st')) :
    ∃ vals sc1,
      evalBody env inclF (2 * line.length + 8) st ⟨cl.data, line, s1, s1, none, false⟩ =
        .ok (vals, st', sc1) ∧
      acc'.1 = (if lastCol == 0 && st'.emitoutline == false then []
                else if lastCol < s0 then dstParts ++ [sliceStr line lastCol s0] else dstParts)
        ++ vals.map render ∧
      acc'.2 = sc1.endpos := by
  unfold blockStep at h
  cases heq : evalBody env inclF (2 * line.length + 8) st
      ⟨cl.data, line, s1, s1, none, false⟩ with
  | error e =>
    rw [heq] at h
    exact absurd h (by simp)
  | ok r =>
    obtain ⟨vals, st1, sc1⟩ := r
    rw [heq] at h
    simp only [Except.ok.injEq, Prod.mk.injEq] at h
    obtain ⟨hpair, hst⟩ := h
    subst hst
    refine ⟨vals, sc1, rfl, ?_, ?_⟩
    · rw [← hpair]
    · rw [← hpair]

/-- C4, counterexample: in `{@ ) junk @}TAIL` the top-level `)` stops
evaluation with the scan abandoned just past the `)`; the emitted tail is
everything from that offset — ` junk @}TAIL` — not the text after the
block-end marker (`TAIL`), as the claim describes. -/
theorem c4_tail_counterexample :
    runLineChunks env0 3 "\x7b@" "@\x7d" (rootState []) "\x7b@ ) junk @\x7dTAIL\n" =
      .ok [" junk @\x7dTAIL\n"] ∧
    ([" junk @\x7dTAIL\n"] : List String) ≠ ["TAIL\n"] := by
  exact ⟨by decide, by decide⟩

/-- C4, amended: after the blocks of a line, with `last_column` the offset
just past the last consumed token (just past the block-end marker whenever
evaluation consumed the whole block, the whole line when no block matched),
the tail `line[last_column:]` is appended verbatim when `emitOutline` is
true; when it is false only a line terminator is appended, and only when the
original line ended with one — all of it only when `emitLines` is set. -/
theorem c4_tail_rule (env : Env) (inclF : InclFn) (op cl : String) (st : State)
    (line : String) (out : List String) (st' : State)
    (h : processLine env inclF op cl st line = .ok (out, st')) :
    ∃ parts lastCol stMid,
      blockFold env inclF cl line.data
          ((occList op.data line.data).map (fun i => (i, i + op.length))) ([], 0) st =
        .ok ((parts, lastCol), stMid) ∧
      st' = { stMid with emitoutline := true } ∧
      out = (if stMid.emitlines then
              parts ++
                (if lastCol < line.length then
                  (if stMid.emitoutline then [String.mk (line.data.drop lastCol)]
                   else if line.data.getLast? == some '\n' then ["\n"] else [])
                 else [])
             else []) := by
  unfold processLine at h
  simp only [] at h
  cases hbf : blockFold env inclF cl line.data
      ((occList op.data line.data).map (fun i => (i, i + op.length))) ([], 0) st with
  | error e =>
    rw [hbf] at h
    exact absurd h (by simp)
  | ok r =>
    obtain ⟨acc, st1⟩ := r
    rw [hbf] at h
    simp only [Except.ok.injEq, Prod.mk.injEq] at h
    obtain ⟨h1, h2⟩ := h
    exact ⟨acc.1, acc.2, st1, rfl, h2.symm, h1.symm⟩


/-- C5: `emitOutline` is reset to true unconditionally at the end of every
processed line, and a fresh include context starts with it true, so every
line's processing begins with `emitOutline = true` and `no_outline` cannot
affect a later line. -/
theorem c5_outline_reset :
    (∀ (env : Env) (inclF : InclFn) (op cl : String) (st : State) (line : String)
        (out : List String) (st' : State),
        processLine env inclF op cl st line = .ok (out, st') → st'.emitoutline = true) ∧
    (∀ (st : State) (p : String), (childState st p).emitoutline = true) := by
  constructor
  · intro env inclF op cl st line out st' h
    unfold processLine at h
    simp only [] at h
    cases hbf : blockFold env inclF cl line.data
        ((occList op.data line.data).map (fun i => (i, i + op.length))) ([], 0) st with
    | error e =>
      rw [hbf] at h
      exact absurd h (by simp)
    | ok r =>
      obtain ⟨acc, st1⟩ := r
      rw [hbf] at h
      simp only [Except.ok.injEq, Prod.mk.injEq] at h
      rw [← h.2]
  · intro st p
    rfl

/-- Witness for C5 at a concrete line. -/
theorem c5_outline_reset_witness :
    (rootState []).emitoutline = true :=
  c5_outline_reset.1 env0 (nestedIncl env0 3) "\x7b@" "@\x7d" (rootState []) "hi\n"
    ["hi\n"] (rootState []) (by decide)

theorem strMk_data (l : String) : String.mk l.data = l := rfl

theorem occGo_nil {op s : List Char} (hnc : ∀ j, j < s.length → matchAt op s j = false) :
    ∀ (f i : Nat), occGo op s i f = [] := by
  intro f
  induction f with
  | zero => intro i; rfl
  | succ f ih =>
    intro i
    unfold occGo
    by_cases hi : i < s.length
    · rw [if_pos hi, hnc i hi]
      simp only [Bool.false_eq_true, if_false]
      exact ih (i + 1)
    · rw [if_neg hi]

theorem occList_nil {op s : List Char} (hnc : ∀ j, j < s.length → matchAt op s j = false) :
    occList op s = [] := by
  unfold occList
  split
  · rfl
  · exact occGo_nil hnc (s.length + 1) 0

theorem string_ne_nil {l : String} (h : l ≠ "") : l.data ≠ [] := by
  intro hd
  apply h
  rw [← strMk_data l, hd]

/-- A line with no block-start occurrence and both flags set passes through
verbatim, leaving the context unchanged. -/
theorem processLine_noocc (env : Env) (inclF : InclFn) (op cl : String) (st : State)
    (l : String) (hocc : occList op.data l.data = []) (hel : st.emitlines = true)
    (heo : st.emitoutline = true) (hne : l ≠ "") :
    processLine env inclF op cl st l = .ok ([l], st) := by
  obtain ⟨v, el, eo, rp, pr⟩ := st
  simp only at hel heo
  subst hel
  subst heo
  unfold processLine
  rw [hocc]
  simp only [List.map_nil]
  have hbf : blockFold env inclF cl l.data [] ([], 0) ⟨v, true, true, rp, pr⟩ =
      .ok (([], 0), ⟨v, true, true, rp, pr⟩) := rfl
  rw [hbf]
  have hlen : 0 < l.length := by
    have := string_ne_nil hne
    cases hd : l.data with
    | nil => exact absurd hd this
    | cons c rest =>
      show 0 < l.data.length
      rw [hd]
      simp
  simp only [if_pos hlen]
  simp [strMk_data]

/-- A file of such lines passes through verbatim. -/
theorem processLines_id (env : Env) (inclF : InclFn) (op cl : String) :
    ∀ (lines : List String) (st : State), st.emitlines = true → st.emitoutline = true →
    (∀ l ∈ lines, l ≠ "" ∧ occList op.data l.data = []) →
    processLines env inclF op cl st lines = .ok (lines, st) := by
  intro lines
  induction lines with
  | nil => intro st _ _ _; rfl
  | cons l rest ih =>
    intro st hel heo hall
    have h1 := processLine_noocc env inclF op cl st l (hall l (by simp)).2 hel heo (hall l (by simp)).1
    have h2 := ih st hel heo (fun x hx => hall x (by simp [hx]))
    simp only [processLines, h1, h2, List.singleton_append]

theorem pathJoin_empty (b : String) : pathJoin "" b = b := by
  obtain ⟨d⟩ := b
  unfold pathJoin
  split
  · rfl
  · rw [if_pos (by simp)]
    rfl

/-- C6, counterexample: an empty source file contains no block-start
marker, its processing yields the empty sequence — and `process_file` then
creates no destination file at all, so no written destination file exists
to be byte-identical to the (empty) source. -/
theorem c6_empty_counterexample :
    processFileOut 3 env6 [] "e.txt" = .ok none ∧
    (Except.ok none : Except Err (Option String)) ≠ .ok (some "") := by
  exact ⟨by decide, by decide⟩

/-- C6, amended: for a source file with at least one line (every line of
`readlines` is non-empty) none of whose lines contains the resolved
block-start marker, processing yields exactly the file's lines unchanged
with the root context restored, and the destination file's written content
is the concatenation of those lines — byte-identical to the source.  (An
empty source also passes through unchanged, but produces no destination
file.) -/
theorem c6_roundtrip (fuel : Nat) (env : Env) (vars : List (String × Value))
    (src : String) (lines : List String) (hf : 0 < fuel)
    (hfs : fsLookup env.fs src = some lines)
    (hml : ∀ l ∈ lines, l ≠ "" ∧ ∀ j, j < l.data.length →
      matchAt (delimitersFor (env.guessMime (basename src))).1.data l.data j = false) :
    includeEvalFn fuel env (rootState vars) (.str src) =
      .ok (lines.map Value.str, rootState vars) ∧
    (lines ≠ [] → processFileOut fuel env vars src = .ok (some (String.join lines))) := by
  obtain ⟨d, rfl⟩ : ∃ d, fuel = d + 1 := ⟨fuel - 1, by omega⟩
  have hmain : includeEvalFn (d + 1) env (rootState vars) (.str src) =
      .ok (lines.map Value.str, rootState vars) := by
    show includeGo env (nestedIncl env d) (rootState vars) (.str src) =
      .ok (lines.map Value.str, rootState vars)
    unfold includeGo
    have hpath : pathJoin (rootState vars).relpath (render (.str src)) = src :=
      pathJoin_empty src
    rw [hpath]
    simp only [hfs, processLines_id env (nestedIncl env d)
      (delimitersFor (env.guessMime (basename src))).1
      (delimitersFor (env.guessMime (basename src))).2 lines
      (childState (rootState vars) src) rfl rfl
      (fun l hl => ⟨(hml l hl).1, occList_nil (hml l hl).2⟩)]
    rfl
  refine ⟨hmain, fun hne => ?_⟩
  unfold processFileOut
  rw [hmain]
  cases lines with
  | nil => exact absurd rfl hne
  | cons l rest =>
    simp only [List.map_cons]
    have : String.join (List.map render (Value.str l :: List.map Value.str rest)) =
        String.join (l :: rest) := by
      simp only [List.map_cons, List.map_map]
      have : render ∘ Value.str = id := by
        funext x
        rfl
      rw [this]
      simp [render]
    rw [← this]
    rfl

/-- Witness for C6 at a concrete marker-free file. -/
theorem c6_roundtrip_witness :
    includeEvalFn 1 env6b (rootState []) (.str "a.txt") =
      .ok (List.map Value.str ["hi\n", "there"], rootState []) ∧
    ((["hi\n", "there"] : List String) ≠ [] →
      processFileOut 1 env6b [] "a.txt" = .ok (some (String.join ["hi\n", "there"]))) :=
  c6_roundtrip 1 env6b [] "a.txt" ["hi\n", "there"] (by decide) (by decide) (by decide)

set_option maxHeartbeats 4000000 in
/-- C7: a child context shares its parent's variables mapping (the same
object, by construction: first conjunct), so every binding visible to the
calling context is visible inside an included file's blocks: from any
caller whose mapping binds `x` (to an arbitrary value, ahead of arbitrary
further bindings), `include_eval` of `i.txt` — whose block evaluates `$x` —
yields exactly the bound value's rendering and returns the caller's context
with the same shared mapping (second conjunct); and the run's initial root
bindings reach even a doubly nested file, `o.txt` including `i.txt` (third
conjunct). -/
theorem c7_shared_vars :
    (∀ (st : State) (p : String), (childState st p).vars = st.vars) ∧
    (∀ (v : Value) (rest : List (String × Value)),
      includeEvalFn 1 env7 ⟨("x", v) :: rest, true, true, "", []⟩ (.str "i.txt") =
        .ok ([.str (render v)], ⟨("x", v) :: rest, true, true, "", []⟩)) ∧
    includeEvalFn 3 env7 (rootState [("x", .str "V")]) (.str "o.txt") =
      .ok ([.str "V"], rootState [("x", .str "V")]) := by
  refine ⟨fun st p => rfl, fun v rest => rfl, by decide⟩

/-- C10: when `include_eval` returns normally, the caller's context is
restored exactly — base directory, `emitLines` and `emitOutline` hold their
prior values (only the shared variables mapping and stdout carry changes
back).  In particular — second conjunct — a `no_outline` executed inside an
included file does not suppress the including line's own verbatim text: the
surrounding `A` and `B` are both emitted. -/
theorem c10_restore :
    (∀ (env : Env) (fuel : Nat) (st : State) (p : Value) (vs : List Value) (st' : State),
        includeEvalFn fuel env st p = .ok (vs, st') →
        st'.relpath = st.relpath ∧ st'.emitlines = st.emitlines ∧
          st'.emitoutline = st.emitoutline) ∧
    runLineChunks env10 3 "\x7b@" "@\x7d" (rootState [])
        "A\x7b@ include_eval \"n.txt\" @\x7dB\n" = .ok ["A", "B\n"] := by
  constructor
  · intro env fuel st p vs st' h
    cases fuel with
    | zero => exact absurd h (by simp [includeEvalFn, nestedIncl])
    | succ d =>
      replace h : includeGo env (nestedIncl env d) st p = .ok (vs, st') := h
      unfold includeGo at h
      simp only [] at h
      split at h
      · exact absurd h (by simp)
      · split at h
        · exact absurd h (by simp)
        · simp only [Except.ok.injEq, Prod.mk.injEq] at h
          rw [← h.2]
          exact ⟨rfl, rfl, rfl⟩
  · decide

/-- Witness for the C3 rule at the counterexample's block. -/
theorem c3_discard_rule_witness :
    ∃ vals sc1,
      evalBody env0 (nestedIncl env0 3) (2 * "xy\x7b@ no_outline @\x7dz\n".data.length + 8)
          (rootState [])
          ⟨"@\x7d".data, "xy\x7b@ no_outline @\x7dz\n".data, 4, 4, none, false⟩ =
        .ok (vals, ⟨[], true, false, "", []⟩, sc1) ∧
      (([], 18) : List String × Nat).1 =
        (if (0 : Nat) == 0 && State.emitoutline ⟨[], true, false, "", []⟩ == false then []
         else if 0 < 2 then ["xy"] ++ [sliceStr "xy\x7b@ no_outline @\x7dz\n".data 0 2] else ["xy"])
          ++ vals.map render ∧
      (([], 18) : List String × Nat).2 = sc1.endpos :=
  c3_discard_rule env0 (nestedIncl env0 3) "@\x7d" "xy\x7b@ no_outline @\x7dz\n".data
    (rootState []) ["xy"] 0 2 4 ([], 18) ⟨[], true, false, "", []⟩ (by decide)

/-- Witness for the C4 rule at a block-free line. -/
theorem c4_tail_rule_witness :
    ∃ parts lastCol stMid,
      blockFold env0 (nestedIncl env0 3) "@\x7d" "hi\n".data
          ((occList "\x7b@".data "hi\n".data).map (fun i => (i, i + ("\x7b@" : String).length)))
          ([], 0) (rootState []) =
        .ok ((parts, lastCol), stMid) ∧
      rootState [] = { stMid with emitoutline := true } ∧
      ["hi\n"] = (if stMid.emitlines then
          parts ++
            (if lastCol < ("hi\n" : String).length then
              (if stMid.emitoutline then [String.mk ("hi\n".data.drop lastCol)]
               else if "hi\n".data.getLast? == some '\n' then ["\n"] else [])
             else [])
         else []) :=
  c4_tail_rule env0 (nestedIncl env0 3) "\x7b@" "@\x7d" (rootState []) "hi\n" ["hi\n"]
    (rootState []) (by decide)

/-- Witness for C10's restoration at the nested include of C7's files. -/
theorem c10_restore_witness :
    (rootState [("x", Value.str "V")]).relpath = (rootState [("x", Value.str "V")]).relpath ∧
    (rootState [("x", Value.str "V")]).emitlines = (rootState [("x", Value.str "V")]).emitlines ∧
    (rootState [("x", Value.str "V")]).emitoutline = (rootState [("x", Value.str "V")]).emitoutline :=
  c10_restore.1 env7 3 (rootState [("x", .str "V")]) (.str "o.txt") [.str "V"]
    (rootState [("x", .str "V")]) (by decide)
